import Mathlib

/-!
Shallow embedding of the infectious-cpp forward-error-correction codec
(systematic Reed-Solomon over GF(2^8)) and proofs about it.

Sources embedded:
- generated field tables (tables.hpp via utils/generate_tables.c; the exp/log
  table values themselves are modelled from the spec, see below)
- src/gf_alg.hpp: gf_pow, gf_mul, gf_div, gf_add, gf_inv, gf_dot, GFPoly, GFMat
- lib/math.cpp: invertMatrix, createInvertedVdm
- lib/fec.hpp / fec.hpp / include/infectious/fec.hpp: FEC constructor,
  Encode, EncodeSingle, RebuildSorted, Rebuild
- src/berlekamp_welch.cpp: eval_point, berlekampWelch

Machine bytes are modelled as Nat values < 256; byte buffers as List Nat.
-/

set_option maxRecDepth 8192

namespace Infectious

/-- Modelled from the spec: tables.hpp is a generated file absent from the
sources.  The spec fixes the field: the primitive element is 2 and the modulus
polynomial is x^8+x^4+x^3+x^2+1, i.e. 0x1D after folding the implicit high
bit.  xtime multiplies a field element by the primitive element 2. -/
def xtime (x : Nat) : Nat :=
  if x < 128 then 2 * x else (2 * x) % 256 ^^^ 0x1d

def gf_exp_list : List Nat := [
  1, 2, 4, 8, 16, 32, 64, 128, 29, 58, 116, 232, 205, 135, 19, 38,
  76, 152, 45, 90, 180, 117, 234, 201, 143, 3, 6, 12, 24, 48, 96, 192,
  157, 39, 78, 156, 37, 74, 148, 53, 106, 212, 181, 119, 238, 193, 159, 35,
  70, 140, 5, 10, 20, 40, 80, 160, 93, 186, 105, 210, 185, 111, 222, 161,
  95, 190, 97, 194, 153, 47, 94, 188, 101, 202, 137, 15, 30, 60, 120, 240,
  253, 231, 211, 187, 107, 214, 177, 127, 254, 225, 223, 163, 91, 182, 113, 226,
  217, 175, 67, 134, 17, 34, 68, 136, 13, 26, 52, 104, 208, 189, 103, 206,
  129, 31, 62, 124, 248, 237, 199, 147, 59, 118, 236, 197, 151, 51, 102, 204,
  133, 23, 46, 92, 184, 109, 218, 169, 79, 158, 33, 66, 132, 21, 42, 84,
  168, 77, 154, 41, 82, 164, 85, 170, 73, 146, 57, 114, 228, 213, 183, 115,
  230, 209, 191, 99, 198, 145, 63, 126, 252, 229, 215, 179, 123, 246, 241, 255,
  227, 219, 171, 75, 150, 49, 98, 196, 149, 55, 110, 220, 165, 87, 174, 65,
  130, 25, 50, 100, 200, 141, 7, 14, 28, 56, 112, 224, 221, 167, 83, 166,
  81, 162, 89, 178, 121, 242, 249, 239, 195, 155, 43, 86, 172, 69, 138, 9,
  18, 36, 72, 144, 61, 122, 244, 245, 247, 243, 251, 235, 203, 139, 11, 22,
  44, 88, 176, 125, 250, 233, 207, 131, 27, 54, 108, 216, 173, 71, 142, 1]

def gf_log_list : List Nat := [
  0, 0, 1, 25, 2, 50, 26, 198, 3, 223, 51, 238, 27, 104, 199, 75,
  4, 100, 224, 14, 52, 141, 239, 129, 28, 193, 105, 248, 200, 8, 76, 113,
  5, 138, 101, 47, 225, 36, 15, 33, 53, 147, 142, 218, 240, 18, 130, 69,
  29, 181, 194, 125, 106, 39, 249, 185, 201, 154, 9, 120, 77, 228, 114, 166,
  6, 191, 139, 98, 102, 221, 48, 253, 226, 152, 37, 179, 16, 145, 34, 136,
  54, 208, 148, 206, 143, 150, 219, 189, 241, 210, 19, 92, 131, 56, 70, 64,
  30, 66, 182, 163, 195, 72, 126, 110, 107, 58, 40, 84, 250, 133, 186, 61,
  202, 94, 155, 159, 10, 21, 121, 43, 78, 212, 229, 172, 115, 243, 167, 87,
  7, 112, 192, 247, 140, 128, 99, 13, 103, 74, 222, 237, 49, 197, 254, 24,
  227, 165, 153, 119, 38, 184, 180, 124, 17, 68, 146, 217, 35, 32, 137, 46,
  55, 63, 209, 91, 149, 188, 207, 205, 144, 135, 151, 178, 220, 252, 190, 97,
  242, 86, 211, 171, 20, 42, 93, 158, 132, 60, 57, 83, 71, 109, 65, 162,
  31, 45, 67, 216, 183, 123, 164, 118, 196, 23, 73, 236, 127, 12, 111, 246,
  108, 161, 59, 82, 41, 157, 85, 170, 251, 96, 134, 177, 187, 204, 62, 90,
  203, 89, 95, 176, 156, 169, 160, 81, 11, 245, 22, 235, 122, 117, 44, 215,
  79, 174, 213, 233, 230, 231, 173, 232, 116, 214, 244, 234, 168, 80, 88, 175]


/-- gf_mul follows utils/generate_tables.c: the 256x256 multiplication table
has entry gf_exp[(gf_log[a] + gf_log[b]) % 255], with row 0 and column 0
zeroed afterwards. -/
def gf_mul (a b : Nat) : Nat :=
  if a = 0 || b = 0 then 0
  else gf_exp_list.getD ((gf_log_list.getD a 0 + gf_log_list.getD b 0) % 255) 0

/-- gf_add from src/gf_alg.hpp: XOR. -/
def gf_add (a b : Nat) : Nat := a ^^^ b

/-- gf_div from src/gf_alg.hpp, with the exp-table index subtraction taken
modulo 255 as the spec prescribes (Modelled from the spec: the exp/log table
layout making the C++ index arithmetic well-defined is not in the sources).
The C++ function throws on b = 0; every call site in this embedding is
guarded so that b is nonzero and the value returned at b = 0 is never used. -/
def gf_div (a b : Nat) : Nat :=
  if a = 0 then 0
  else gf_exp_list.getD ((gf_log_list.getD a 0 + 255 - gf_log_list.getD b 0) % 255) 0

/-- gf_inv from src/gf_alg.hpp: gf_exp[255 - gf_log[n]] for n nonzero.  The
C++ function throws on 0; call sites in this embedding are guarded. -/
def gf_inv (n : Nat) : Nat :=
  if n = 0 then 0 else gf_exp_list.getD (255 - gf_log_list.getD n 0) 0

/-- gf_pow from src/gf_alg.hpp: out starts at 1 and is multiplied by n
(through the multiplication table) val times. -/
def gf_pow (n : Nat) : Nat -> Nat
  | 0 => 1
  | val + 1 => gf_mul n (gf_pow n val)

/-- gf_dot from src/gf_alg.hpp: XOR-accumulated pairwise products. -/
def gf_dot (a b : List Nat) : Nat :=
  (List.range a.length).foldl (fun out i => gf_add out (gf_mul (a.getD i 0) (b.getD i 0))) 0

/-- The scalar addmul kernel (src/addmul.cpp): z[i] ^= gf_mul_table[y][x[i]]
for each byte of z. -/
def addmul (z x : List Nat) (y : Nat) : List Nat :=
  z.zipWith (fun zi xi => zi ^^^ gf_mul y xi) x

--------------------------------------------------------------------------------
-- Error taxonomy
--------------------------------------------------------------------------------

/-- The distinct failure modes of the library, one constructor per throw site:
TooManyErrors and NotEnoughShares are the dedicated exception classes of
include/infectious/fec.hpp; InvalidLength, InvalidParameters and
InvalidShareNum are the invalid_argument throws; DivideByZero and AlgebraError
are the domain_error throws of src/gf_alg.hpp; PivotNotFound and
SingularMatrix are the throws of lib/math.cpp invertMatrix. -/
inductive Error where
  | InvalidLength
  | InvalidParameters
  | InvalidShareNum
  | NotEnoughShares
  | TooManyErrors
  | DivideByZero
  | AlgebraError
  | PivotNotFound
  | SingularMatrix
deriving DecidableEq, Repr

--------------------------------------------------------------------------------
-- GFPoly (src/gf_alg.hpp): polynomials over GF(2^8), coefficients high
-- degree first.  The C++ class keeps a coefficient vector plus a start_at
-- offset; all operations act on the effective view values[start_at..], which
-- this embedding represents directly as a list (shift becomes List.drop).
--------------------------------------------------------------------------------

abbrev GFPoly := List Nat

namespace GFPoly

/-- GFPoly::index: the coefficient of x^power (position deg() - power of the
view), or 0 when out of range. -/
def index (p : GFPoly) (power : Nat) : Nat :=
  if power < p.length then p.getD (p.length - 1 - power) 0 else 0

/-- GFPoly::scale: coefficient-wise multiplication by factor. -/
def scale (p : GFPoly) (factor : Nat) : GFPoly :=
  p.map (fun v => gf_mul v factor)

/-- GFPoly::add: XOR aligned by degree; the result has the longer length. -/
def add (a b : GFPoly) : GFPoly :=
  let len := max a.length b.length
  (List.range len).map (fun j => gf_add (a.index (len - 1 - j)) (b.index (len - 1 - j)))

/-- GFPoly::is_zero: all coefficients of the view are zero. -/
def is_zero (p : GFPoly) : Bool :=
  p.all (fun v => v == 0)

/-- GFPoly::remove_leading_zeroes: advance past leading zero coefficients. -/
def remove_leading_zeroes (p : GFPoly) : GFPoly :=
  p.dropWhile (fun v => v == 0)

/-- The trailing loop of GFPoly::div: while (p.size() > 1 && p[0] == 0)
p.shift(1). -/
def remove_leading_keep_last : GFPoly -> GFPoly
  | [] => []
  | a :: rest => if a = 0 ∧ rest ≠ [] then remove_leading_keep_last rest else a :: rest

/-- GFPoly::eval: sum of gf_mul(p_i, x^i) over the coefficients. -/
def eval (p : GFPoly) (x : Nat) : Nat :=
  (List.range p.length).foldl (fun out i => gf_add out (gf_mul (p.index i) (gf_pow x i))) 0

/-- The division loop of GFPoly::div.  One iteration: compute the quotient
coefficient from the leading coefficients, push it onto q, subtract
(XOR-add) the scaled divisor padded with zeros on the right, check that the
new leading coefficient is zero (else AlgebraError), and shift it away.
The divisor b has already been stripped of leading zeros and is nonempty.
The loop runs while b.length <= p.length; since every iteration shortens p
by one, a fuel of p.length always suffices, and when the fuel is exhausted
the fuel-0 branch coincides with the loop-exit branch. -/
def divLoop (b : GFPoly) : Nat -> GFPoly -> GFPoly -> Except Error (GFPoly × GFPoly)
  | 0, p, q => .ok (q, p)
  | fuel + 1, p, q =>
    if b.length ≤ p.length then
      let coef := gf_div (p.index (p.length - 1)) (b.index (b.length - 1))
      if (p.add (b.scale coef ++ List.replicate (p.length - b.length) 0)).headD 0 ≠ 0 then
        .error .AlgebraError
      else
        divLoop b fuel ((p.add (b.scale coef ++ List.replicate (p.length - b.length) 0)).drop 1) (q ++ [coef])
    else
      .ok (q, p)

/-- GFPoly::div: strip both polynomials; empty divisor fails with
DivideByZero; empty dividend returns a pair of one-coefficient zero
polynomials; otherwise run the division loop and strip the remainder
(keeping at least one coefficient). -/
def div (p b : GFPoly) : Except Error (GFPoly × GFPoly) :=
  let b2 := b.remove_leading_zeroes
  if b2.length = 0 then .error .DivideByZero
  else
    let p2 := p.remove_leading_zeroes
    if p2.length = 0 then .ok ([0], [0])
    else
      match divLoop b2 p2.length p2 [] with
      | .error e => .error e
      | .ok (q, r) => .ok (q, r.remove_leading_keep_last)

end GFPoly

--------------------------------------------------------------------------------
-- GFMat (src/gf_alg.hpp): row-major byte matrix over GF(2^8)
--------------------------------------------------------------------------------

structure GFMat where
  r : Nat
  c : Nat
  d : List Nat

namespace GFMat

def mk0 (i j : Nat) : GFMat := ⟨i, j, List.replicate (i*j) 0⟩

def get (m : GFMat) (i j : Nat) : Nat := m.d.getD (m.c * i + j) 0

def set (m : GFMat) (i j : Nat) (val : Nat) : GFMat :=
  { m with d := m.d.set (m.c * i + j) val }

def row (m : GFMat) (i : Nat) : List Nat := (m.d.drop (m.c * i)).take m.c

def set_row (m : GFMat) (i : Nat) (rw : List Nat) : GFMat :=
  { m with d := m.d.take (m.c * i) ++ rw ++ m.d.drop (m.c * i + m.c) }

/-- GFMat::swap_row via a temporary copy. -/
def swap_row (m : GFMat) (i j : Nat) : GFMat :=
  let ri := m.row i
  let rj := m.row j
  (m.set_row i rj).set_row j ri

/-- GFMat::scale_row: multiply each entry of row r by val. -/
def scale_row (m : GFMat) (i : Nat) (val : Nat) : GFMat :=
  m.set_row i ((m.row i).map (fun x => gf_mul x val))

/-- GFMat::addmul_row: row j ^= gf_mul(val, row i) elementwise, through the
addmul kernel. -/
def addmul_row (m : GFMat) (i j : Nat) (val : Nat) : GFMat :=
  m.set_row j (addmul (m.row j) (m.row i) val)

/-- GFMat::invert_with: in-place Gauss-Jordan.  s is reduced to the identity
while the same row operations applied to a (initially the identity) build the
inverse.  The pivot scan takes the first t in [i, r) with s[t][i] nonzero and
skips the column entirely when there is none. -/
def invert_with (s a : GFMat) : GFMat × GFMat :=
  let fwd := (List.range s.r).foldl (fun (st : GFMat × GFMat) i =>
    let s := st.1
    let a := st.2
    match (List.range' i (s.r - i)).find? (fun t => s.get t i != 0) with
    | none => (s, a)
    | some p_row =>
      let p_val := s.get p_row i
      let s2 := if p_row ≠ i then s.swap_row i p_row else s
      let a2 := if p_row ≠ i then a.swap_row i p_row else a
      let iv := gf_inv p_val
      let s3 := s2.scale_row i iv
      let a3 := a2.scale_row i iv
      (List.range' (i+1) (s.r - (i+1))).foldl (fun (st2 : GFMat × GFMat) j =>
        let leading := st2.1.get j i
        (st2.1.addmul_row i j leading, st2.2.addmul_row i j leading)) (s3, a3)) (s, a)
  (List.range' 1 (s.r - 1)).reverse.foldl (fun (st : GFMat × GFMat) i =>
    (List.range i).reverse.foldl (fun (st2 : GFMat × GFMat) j =>
      let trailing := st2.1.get j i
      (st2.1.addmul_row i j trailing, st2.2.addmul_row i j trailing)) st) fwd

end GFMat

--------------------------------------------------------------------------------
-- Matrix helpers from lib/math.cpp
--------------------------------------------------------------------------------

/-- createInvertedVdm (lib/math.cpp): builds the k x k inverted Vandermonde
matrix in the first k*k entries of vdm, via synthetic division of the master
polynomial by the interpolation nodes 0, 2^0, 2^1, ... -/
def createInvertedVdm (vdm : List Nat) (k : Nat) : List Nat :=
  if k = 1 then vdm.set 0 1
  else
    let c0 := (List.replicate k 0).set (k-1) 0
    let c := (List.range' 1 (k-1)).foldl (fun c i =>
      let c := (List.range' (k-1-(i-1)) (i-1)).foldl (fun c j =>
        c.set j (c.getD j 0 ^^^ gf_mul (gf_exp_list.getD i 0) (c.getD (j+1) 0))) c
      c.set (k-1) (c.getD (k-1) 0 ^^^ gf_exp_list.getD i 0)) c0
    (List.range k).foldl (fun vdm rowIdx =>
      let idx := if rowIdx = 0 then 0 else gf_exp_list.getD rowIdx 0
      let bt := (List.range (k-1)).reverse.foldl (fun (bt : List Nat × Nat) i =>
        let bi := c.getD (i+1) 0 ^^^ gf_mul idx (bt.1.getD (i+1) 0)
        (bt.1.set i bi, bi ^^^ gf_mul idx bt.2)) (((List.replicate k 0).set (k-1) 1), 1)
      let ti := gf_inv bt.2
      (List.range k).foldl (fun vdm col =>
        vdm.set (col*k + rowIdx) (gf_mul ti (bt.1.getD col 0))) vdm) vdm

--------------------------------------------------------------------------------
-- The FEC codec (lib/fec.hpp constructor; identical in fec.hpp and in the
-- initialize() of the include/infectious/fec.hpp version)
--------------------------------------------------------------------------------

structure FEC where
  k : Nat
  n : Nat
  enc_matrix : List Nat
  vand_matrix : List Nat

/-- The FEC constructor for valid parameters 1 <= k <= n <= 256 (the C++
constructor throws InvalidParameters outside that range before touching any
matrix).  temp_matrix holds the inverted Vandermonde (rows < k) and the
exponential Vandermonde rows k..n-1 with temp[i] = gf_exp[(i/k)*(i%k) % 255];
enc_matrix gets the k x k identity on top of the product of the exponential
rows with the inverted Vandermonde; vand_matrix[0] = 1 and row r of
vand_matrix holds 1, g_r^1, ..., g_r^(n-2) from column 1 on, where the row
generator g_r starts at 1 and doubles every row. -/
def fecNew (k n : Nat) : FEC :=
  let temp0 := createInvertedVdm (List.replicate (n*k) 0) k
  let temp := (List.range' (k*k) (n*k - k*k)).foldl (fun t i =>
    t.set i (gf_exp_list.getD ((i/k)*(i%k) % 255) 0)) temp0
  let enc0 := (List.range k).foldl (fun e i => e.set (i*(k+1)) 1) (List.replicate (n*k) 0)
  let enc := (List.range' (k*k) (n-k) k).foldl (fun e rowBase =>
    (List.range k).foldl (fun e col =>
      let acc := (List.range k).foldl (fun acc i =>
        acc ^^^ gf_mul (temp.getD (rowBase+i) 0) (temp.getD (col+i*k) 0)) 0
      e.set (rowBase+col) acc) e) enc0
  let vand := ((List.range k).foldl (fun (st : List Nat × Nat) row =>
    let inner := (List.range' 1 (n-1)).foldl (fun (st2 : List Nat × Nat) col =>
      (st2.1.set (row*n+col) st2.2, gf_mul st.2 st2.2)) (st.1, 1)
    (inner.1, gf_mul 2 st.2)) (((List.replicate (k*n) 0).set 0 1), 1)).1
  ⟨k, n, enc, vand⟩

--------------------------------------------------------------------------------
-- Encode and EncodeSingle (include/infectious/fec.hpp; identical in
-- lib/fec.hpp and fec.hpp).  Share emissions through the output callback are
-- modelled as the list of (num, bytes) pairs in call order.
--------------------------------------------------------------------------------

/-- FEC::Encode: reject input whose length is not a multiple of k; emit the k
blocks of the input as shares 0..k-1; then for i in [k, n) emit the parity
share obtained by XOR-accumulating addmul of each input block j scaled by
enc_matrix[i*k+j] into a zeroed buffer. -/
def Encode (f : FEC) (input : List Nat) : Except Error (List (Nat × List Nat)) :=
  if input.length % f.k ≠ 0 then .error .InvalidLength
  else
    let block_size := input.length / f.k
    let primary := (List.range f.k).map (fun i =>
      (i, (input.drop (i*block_size)).take block_size))
    let parity := (List.range' f.k (f.n - f.k)).map (fun i =>
      (i, (List.range f.k).foldl (fun fec_buf j =>
        addmul fec_buf ((input.drop (j*block_size)).take block_size)
          (f.enc_matrix.getD (i*f.k+j) 0)) (List.replicate block_size 0)))
    .ok (primary ++ parity)

/-- FEC::EncodeSingle: checks (num in range, input length a multiple of k,
output length equal to the block size), then either copies the primary block
num or XOR-accumulates the parity share num into the zero-filled output. -/
def EncodeSingle (f : FEC) (num : Nat) (input output : List Nat) : Except Error (List Nat) :=
  if num ≥ f.n then .error .InvalidParameters
  else if input.length % f.k ≠ 0 then .error .InvalidLength
  else
    let block_size := input.length / f.k
    if output.length ≠ block_size then .error .InvalidLength
    else if num < f.k then .ok ((input.drop (num*block_size)).take block_size)
    else
      .ok ((List.range f.k).foldl (fun ob i =>
        addmul ob ((input.drop (i*block_size)).take block_size)
          (f.enc_matrix.getD (num*f.k+i) 0)) (List.replicate output.length 0))

--------------------------------------------------------------------------------
-- Berlekamp-Welch (src/berlekamp_welch.cpp)
--------------------------------------------------------------------------------

/-- eval_point from src/berlekamp_welch.cpp: node 0 for share 0, and
2^(num-1) for share num > 0. -/
def eval_point (num : Nat) : Nat :=
  if num = 0 then 0 else gf_pow 2 (num - 1)

/-- FEC::berlekampWelch: from r shares (as byte buffers plus share numbers)
and a byte index, build the dim x dim system s*u = f with dim = k + 2e,
e = (r-k)/2, one equation per share i < dim; solve it by inverting s;
split the reversed solution into the error locator polynomial e_poly (leading
1 prepended) and q_poly; divide; a nonzero remainder means TooManyErrors;
otherwise return P evaluated at the n interpolation nodes. -/
def berlekampWelch (f : FEC) (shares_vec : List (List Nat)) (shares_nums : List Nat)
    (index : Nat) : Except Error (List Nat) :=
  let r := shares_vec.length
  let e := (r - f.k) / 2
  let q := e + f.k
  if e = 0 then .error .NotEnoughShares
  else
    let dim := q + e
    let built := (List.range dim).foldl (fun (st : GFMat × GFMat × List Nat) i =>
      let x_i := eval_point (shares_nums.getD i 0)
      let r_i := (shares_vec.getD i []).getD index 0
      let fv := st.2.2.set i (gf_mul (gf_pow x_i e) r_i)
      let sa := (List.range q).foldl (fun (st2 : GFMat × GFMat) j =>
        (st2.1.set i j (gf_pow x_i j), if i = j then st2.2.set i j 1 else st2.2)) (st.1, st.2.1)
      let sa2 := (List.range e).foldl (fun (st2 : GFMat × GFMat) t =>
        let j := t + q
        (st2.1.set i j (gf_mul (gf_pow x_i t) r_i),
         if i = j then st2.2.set i j 1 else st2.2)) sa
      (sa2.1, sa2.2, fv)) (GFMat.mk0 dim dim, GFMat.mk0 dim dim, List.replicate dim 0)
    let inverted := (built.1.invert_with built.2.1).2
    let u := ((List.range dim).map (fun i => gf_dot built.2.2 (inverted.row i))).reverse
    let q_poly : GFPoly := u.drop e
    let e_poly : GFPoly := 1 :: u.take e
    match q_poly.div e_poly with
    | .error err => .error err
    | .ok (p_poly, rem) =>
      if ¬ rem.is_zero then .error .TooManyErrors
      else
        .ok ((List.range f.n).map (fun i =>
          let pt := if i = 0 then 0 else gf_pow 2 (i - 1)
          p_poly.eval pt))

--------------------------------------------------------------------------------
-- invertMatrix (lib/math.cpp) and the rebuild pipeline
--------------------------------------------------------------------------------

/-- The pivotSearcher of lib/math.cpp: prefer the untouched diagonal entry of
col; otherwise scan rows in order, skipping rows already used as pivots, and
take the first nonzero entry in an unused column.  Throws (PivotNotFound)
when no pivot exists. -/
def pivotSearch (k : Nat) (ipiv : List Bool) (col : Nat) (matrix : List Nat) :
    Except Error (List Bool × Nat × Nat) :=
  if ¬ (ipiv.getD col false) ∧ matrix.getD (col*k+col) 0 ≠ 0 then
    .ok (ipiv.set col true, col, col)
  else
    match (List.range k).findSome? (fun row =>
      if ipiv.getD row false then none
      else (List.range k).findSome? (fun i =>
        if ¬ (ipiv.getD i false) ∧ matrix.getD (row*k+i) 0 ≠ 0 then some (row, i)
        else none)) with
    | some (row, i) => .ok (ipiv.set i true, row, i)
    | none => .error .PivotNotFound

/-- invertMatrix from lib/math.cpp: Gauss-Jordan with full pivot search,
normalizing the pivot row (the pivot entry itself becomes its inverse, as in
the classical in-place inversion), eliminating all other rows, and finally
undoing the row swaps by swapping columns. -/
def invertMatrix (matrix : List Nat) (k : Nat) : Except Error (List Nat) := do
  let st <- (List.range k).foldlM (fun (st : List Nat × List Bool × List Nat × List Nat) col => do
    let m := st.1
    let ipiv := st.2.1
    let indxr := st.2.2.1
    let indxc := st.2.2.2
    let pr <- pivotSearch k ipiv col m
    let ipiv2 := pr.1
    let icol := pr.2.1
    let irow := pr.2.2
    let m := if irow ≠ icol then
        (List.range k).foldl (fun m i =>
          let x := m.getD (irow*k+i) 0
          let y := m.getD (icol*k+i) 0
          (m.set (irow*k+i) y).set (icol*k+i) x) m
      else m
    let indxr := indxr.set col irow
    let indxc := indxc.set col icol
    let c := m.getD (icol*k+icol) 0
    if c = 0 then Except.error Error.SingularMatrix
    else
      let m := if c ≠ 1 then
          let ci := gf_inv c
          let m := m.set (icol*k+icol) 1
          (List.range k).foldl (fun m i => m.set (icol*k+i) (gf_mul ci (m.getD (icol*k+i) 0))) m
        else m
      let pivot_row := (m.drop (icol*k)).take k
      let id_row := (List.replicate k 0).set icol 1
      let m := if pivot_row ≠ id_row then
          (List.range k).foldl (fun m i =>
            if i ≠ icol then
              let cc := m.getD (i*k+icol) 0
              let m := m.set (i*k+icol) 0
              (List.range k).foldl (fun m t =>
                m.set (i*k+t) (m.getD (i*k+t) 0 ^^^ gf_mul cc (m.getD (icol*k+t) 0))) m
            else m) m
        else m
      pure (m, ipiv2, indxr, indxc))
    (matrix, List.replicate k false, List.replicate k 0, List.replicate k 0)
  let m := st.1
  let indxr := st.2.2.1
  let indxc := st.2.2.2
  pure ((List.range k).foldl (fun m i =>
    if indxr.getD i 0 ≠ indxc.getD i 0 then
      (List.range k).foldl (fun m rw =>
        let x := m.getD (rw*k + indxr.getD i 0) 0
        let y := m.getD (rw*k + indxc.getD i 0) 0
        (m.set (rw*k + indxr.getD i 0) y).set (rw*k + indxc.getD i 0) x) m
    else m) m)

/-- FEC::RebuildSorted (include/infectious/fec.hpp): from at least k
corrected shares sorted by share number, select k of them walking from both
ends (taking the front share when its number equals the loop index i, else
the back share), emitting primary shares as they are found, and solving
decoding_matrix * x = selected for the missing primary blocks.  Share
numbers are Int (C++ int) so that the share_id < 0 check is meaningful.
Emissions are returned in callback order. -/
def RebuildSorted (f : FEC) (shares : List (Int × List Nat)) :
    Except Error (List (Int × List Nat)) :=
  if shares.length < f.k then .error .NotEnoughShares
  else do
    let k := f.k
    let st <- (List.range k).foldlM
      (fun (st : Nat × Nat × Bool × Nat × List Nat × List Int × List (List Nat) × List (Int × List Nat)) i => do
        let bi := st.1
        let ei := st.2.1
        let missing := st.2.2.1
        let dec := st.2.2.2.2.1
        let indexes := st.2.2.2.2.2.1
        let begins := st.2.2.2.2.2.2.1
        let out := st.2.2.2.2.2.2.2
        let sb := shares.getD bi (0, [])
        let pick :=
          if sb.1 = Int.ofNat i then (sb, bi+1, ei, missing)
          else (shares.getD ei (0, []), bi, ei-1, true)
        let share_id := pick.1.1
        let data := pick.1.2
        if share_id < 0 ∨ share_id ≥ Int.ofNat f.n then Except.error Error.InvalidShareNum
        else
          let decOut :=
            if share_id < Int.ofNat k then
              (dec.set (i*(k+1)) 1, out ++ [(share_id, data)])
            else
              ((List.range k).foldl (fun d t =>
                d.set (i*k+t) (f.enc_matrix.getD (share_id.toNat*k+t) 0)) dec, out)
          pure (pick.2.1, pick.2.2.1, pick.2.2.2, data.length,
            decOut.1, indexes ++ [share_id], begins ++ [data], decOut.2))
      (0, shares.length - 1, false, 0, List.replicate (k*k) 0, [], [], [])
    let missing := st.2.2.1
    let share_size := st.2.2.2.1
    let dec := st.2.2.2.2.1
    let indexes := st.2.2.2.2.2.1
    let begins := st.2.2.2.2.2.2.1
    let out := st.2.2.2.2.2.2.2
    if missing = false then pure out
    else do
      let dec <- invertMatrix dec k
      pure ((List.range k).foldl (fun out i =>
        if (indexes.getD i 0) ≥ Int.ofNat k then
          out ++ [(Int.ofNat i, (List.range k).foldl (fun buf col =>
            addmul buf (begins.getD col []) (dec.getD (i*k+col) 0))
            (List.replicate share_size 0))]
        else out) out)

/-- FEC::Rebuild via rebuild_specialization::SortAndRebuild
(include/infectious/fec.hpp): collect the shares into a sorted map keyed by
share number (std::map::try_emplace keeps the first occurrence of a
duplicated key), then run RebuildSorted. -/
def sortedInsert : List (Int × List Nat) -> (Int × List Nat) -> List (Int × List Nat)
  | [], s => [s]
  | t :: rest, s =>
    if s.1 < t.1 then s :: t :: rest
    else if s.1 = t.1 then t :: rest
    else t :: sortedInsert rest s

def Rebuild (f : FEC) (shares : List (Int × List Nat)) :
    Except Error (List (Int × List Nat)) :=
  RebuildSorted f (shares.foldl sortedInsert [])

/-- Coefficient of x^w in the polynomial product a*b over GF(2^8): the
XOR-accumulated convolution sum over gf_mul(a_u, b_(w-u)) for u in [0, w]
(terms beyond the degree contribute 0).  Used to state the division
contract. -/
def mulCoefAux (a b : GFPoly) (w : Nat) : Nat -> Nat
  | 0 => gf_mul (GFPoly.index a 0) (GFPoly.index b w)
  | u + 1 => gf_mul (GFPoly.index a (u+1)) (GFPoly.index b (w - (u+1))) ^^^ mulCoefAux a b w u

def mulCoef (a b : GFPoly) (w : Nat) : Nat := mulCoefAux a b w w

--------------------------------------------------------------------------------
-- Theorems.  First: facts about the field tables, GFPoly lengths, and
-- concrete sanity checks of the embedded functions on test vectors.
--------------------------------------------------------------------------------

/-- The exp table starts at 2^0 = 1 ... -/
theorem gf_exp_list_head : gf_exp_list.getD 0 0 = 1 := by decide

/-- ... and each entry is the previous one multiplied by the primitive
element 2, so gf_exp_list lists the powers of 2. -/
theorem gf_exp_list_step : forall i, i < 255 -> gf_exp_list.getD (i+1) 0 = xtime (gf_exp_list.getD i 0) := by
  decide

/-- The log table is the inverse of the exp table on exponents [0, 255). -/
theorem gf_log_exp : forall i, i < 255 -> gf_log_list.getD (gf_exp_list.getD i 0) 0 = i := by
  decide

--------------------------------------------------------------------------------
-- Derived facts about the field tables
--------------------------------------------------------------------------------

theorem gf_exp_lt : forall i, i < 256 -> gf_exp_list.getD i 0 < 256 := by decide

theorem gf_exp_ne_zero : forall i, i < 256 -> gf_exp_list.getD i 0 ≠ 0 := by decide

theorem gf_log_lt : forall a, a < 256 -> gf_log_list.getD a 0 < 255 := by decide

theorem gf_exp_log : forall a, a < 256 -> 0 < a -> gf_exp_list.getD (gf_log_list.getD a 0) 0 = a := by
  decide

theorem gf_mul_comm (a b : Nat) : gf_mul a b = gf_mul b a := by
  by_cases ha : a = 0 <;> by_cases hb : b = 0 <;> simp [gf_mul, ha, hb, Nat.add_comm]

theorem gf_mul_zero (a : Nat) : gf_mul a 0 = 0 := by simp [gf_mul]

theorem gf_zero_mul (a : Nat) : gf_mul 0 a = 0 := by simp [gf_mul]

theorem gf_mul_lt (a b : Nat) : gf_mul a b < 256 := by
  unfold gf_mul
  split
  · omega
  · exact gf_exp_lt _ (Nat.lt_succ_of_lt (Nat.mod_lt _ (by omega)))

theorem xor_lt_256 {a b : Nat} (ha : a < 256) (hb : b < 256) : a ^^^ b < 256 := by
  have h : Nat.bitwise bne a b < 2 ^ 8 := Nat.bitwise_lt (by norm_num [ha]) (by norm_num [hb])
  simpa [HXor.hXor, Xor.xor, Nat.xor] using h

theorem gf_exp_add (i j : Nat) (hi : i < 255) (hj : j < 255) :
    gf_mul (gf_exp_list.getD i 0) (gf_exp_list.getD j 0) = gf_exp_list.getD ((i + j) % 255) 0 := by
  unfold gf_mul
  rw [if_neg, gf_log_exp i hi, gf_log_exp j hj]
  simp only [Bool.or_eq_true, decide_eq_true_eq, not_or]
  exact ⟨gf_exp_ne_zero i (by omega), gf_exp_ne_zero j (by omega)⟩

theorem gf_exp_one : gf_exp_list.getD 1 0 = 2 := by decide

theorem gf_pow_two (m : Nat) : gf_pow 2 m = gf_exp_list.getD (m % 255) 0 := by
  induction m with
  | zero => decide
  | succ m ih =>
    show gf_mul 2 (gf_pow 2 m) = _
    rw [ih, ← gf_exp_one, gf_exp_add 1 (m % 255) (by omega) (Nat.mod_lt _ (by omega))]
    congr 1
    omega

theorem gf_pow_expt (i : Nat) (hi : i < 255) (m : Nat) :
    gf_pow (gf_exp_list.getD i 0) m = gf_exp_list.getD (i * m % 255) 0 := by
  induction m with
  | zero => simp [gf_pow]; decide
  | succ m ih =>
    show gf_mul _ (gf_pow _ m) = _
    rw [ih, gf_exp_add i (i * m % 255) hi (Nat.mod_lt _ (by omega))]
    congr 1
    rw [Nat.mul_succ]
    omega

theorem gf_pow_pow_two (r m : Nat) : gf_pow (gf_pow 2 r) m = gf_pow 2 (r * m) := by
  rw [gf_pow_two r, gf_pow_expt (r % 255) (Nat.mod_lt _ (by omega)) m, gf_pow_two (r * m)]
  congr 1
  exact Nat.mod_mul_mod

theorem gf_mul_cancel (a b : Nat) (ha : a < 256) (hb0 : b ≠ 0) (hb : b < 256) :
    gf_mul b (gf_div a b) = a := by
  by_cases ha0 : a = 0
  · simp [ha0, gf_div, gf_mul]
  · have hla := gf_log_lt a ha
    have hlb := gf_log_lt b hb
    have hdiv : gf_div a b =
        gf_exp_list.getD ((gf_log_list.getD a 0 + 255 - gf_log_list.getD b 0) % 255) 0 := by
      simp [gf_div, ha0]
    have hkey : (gf_log_list.getD b 0 + (gf_log_list.getD a 0 + 255 - gf_log_list.getD b 0) % 255) % 255
        = gf_log_list.getD a 0 := by omega
    rw [hdiv]
    nth_rewrite 1 [show b = gf_exp_list.getD (gf_log_list.getD b 0) 0 from
      (gf_exp_log b hb (Nat.pos_of_ne_zero hb0)).symm]
    rw [gf_exp_add _ _ hlb (Nat.mod_lt _ (by omega)), hkey]
    exact gf_exp_log a ha (Nat.pos_of_ne_zero ha0)


namespace GFPoly

theorem length_scale (p : GFPoly) (f : Nat) : (p.scale f).length = p.length := by
  simp [scale]

theorem length_add (a b : GFPoly) : (a.add b).length = max a.length b.length := by
  simp [add]

end GFPoly


theorem gf_mul_sanity :
    gf_mul 2 4 = 8 ∧ gf_mul 128 2 = 29 ∧ gf_pow 2 8 = 29 ∧ gf_div 8 2 = 4 ∧
      gf_mul 7 (gf_inv 7) = 1 := by
  decide

theorem div_sanity_unit : GFPoly.div [1] [1] = .ok ([1], []) := by rfl

theorem div_sanity_const : GFPoly.div [5] [3] = .ok ([3], []) := by rfl

theorem div_sanity_zero_divisor : GFPoly.div [1, 2, 3] [0] = .error .DivideByZero := by rfl

theorem eval_sanity :
    GFPoly.eval [1, 2, 3] 2 = gf_add 3 (gf_add (gf_mul 2 2) (gf_mul 1 (gf_mul 2 2))) := by rfl

theorem fecNew_enc_matrix_3_7 : (fecNew 3 7).enc_matrix =
    [1, 0, 0, 0, 1, 0, 0, 0, 1, 15, 8, 6, 45, 48, 28, 153, 224, 120, 11, 231, 237] := by rfl

theorem fecNew_vand_matrix_3_7 : (fecNew 3 7).vand_matrix =
    [1, 1, 1, 1, 1, 1, 1, 0, 1, 2, 4, 8, 16, 32, 0, 1, 4, 16, 64, 29, 116] := by rfl

theorem Encode_sanity_3_7 : Encode (fecNew 3 7) [1, 2, 3] =
    .ok [(0, [1]), (1, [2]), (2, [3]), (3, [0x15]), (4, [0x69]), (5, [0xcc]), (6, [0xf2])] := by
  rfl

theorem berlekampWelch_sanity_3_7 :
    berlekampWelch (fecNew 3 7) [[1], [2], [3], [0x15], [0x69], [0xcc], [0xf2]]
      [0, 1, 2, 3, 4, 5, 6] 0 = .ok [1, 2, 3, 0x15, 0x69, 0xcc, 0xf2] := by rfl

theorem Rebuild_sanity_out_of_range_unselected :
    Rebuild (fecNew 2 3) [(0, [7]), (1, [9]), (5, [1])] = .ok [(0, [7]), (1, [9])] := by rfl

theorem Rebuild_sanity_recover :
    Rebuild (fecNew 2 3) [(1, [2]), (2, [6])] = .ok [(1, [2]), (0, [245])] := by rfl


--------------------------------------------------------------------------------
-- List helpers
--------------------------------------------------------------------------------

theorem getD_set_ne (l : List Nat) (v d : Nat) {i j : Nat} (h : i ≠ j) :
    (l.set i v).getD j d = l.getD j d := by
  rw [List.getD_eq_getD_get?, List.getD_eq_getD_get?, List.get?_eq_getElem?,
    List.get?_eq_getElem?, List.getElem?_set_ne h]

theorem getD_set_self (l : List Nat) (v d : Nat) {i : Nat} (h : i < l.length) :
    (l.set i v).getD i d = v := by
  rw [List.getD_eq_getD_get?, List.get?_eq_getElem?, List.getElem?_set_eq_of_lt v h]
  rfl

theorem getD_replicate_zero (m t : Nat) : (List.replicate m (0:Nat)).getD t 0 = 0 := by
  rw [List.getD_eq_getD_get?, List.get?_eq_getElem?]
  exact List.getElem?_getD_replicate_default_eq 0 m t

theorem iterate_gf_mul_one (a : Nat) : ∀ e, (fun x => gf_mul a x)^[e] 1 = gf_pow a e := by
  intro e
  induction e with
  | zero => rfl
  | succ e ih => rw [Function.iterate_succ_apply', ih]; rfl

theorem rowcol_ne_col0 {n r row col : Nat} (hc1 : 1 ≤ col) (hcn : col < n) :
    r * n ≠ row * n + col := by
  rcases Nat.lt_trichotomy row r with h | h | h
  · have h2 : (row+1) * n ≤ r * n := Nat.mul_le_mul_right n h
    have h3 : (row+1) * n = row*n + n := by ring
    omega
  · subst h; omega
  · have h2 : (r+1) * n ≤ row * n := Nat.mul_le_mul_right n h
    have h3 : (r+1) * n = r*n + n := by ring
    omega

theorem rowcol_lt {n r c row col : Nat} (hcn : c < n) (hr : r < row) :
    r*n + c < row*n + col := by
  have h2 : (r+1) * n ≤ row * n := Nat.mul_le_mul_right n hr
  have h3 : (r+1) * n = r*n + n := by ring
  omega

--------------------------------------------------------------------------------
-- Characterization of the vand_matrix loops of the FEC constructor
--------------------------------------------------------------------------------

theorem vand_inner_len (row n g : Nat) : ∀ (m s : Nat) (d : List Nat) (a : Nat),
    (((List.range' s m).foldl (fun (st2 : List Nat × Nat) col =>
      (st2.1.set (row*n+col) st2.2, gf_mul g st2.2)) (d, a)).1).length = d.length := by
  intro m
  induction m with
  | zero => intro s d a; rfl
  | succ m ih =>
    intro s d a
    rw [List.range'_succ, List.foldl_cons]
    rw [ih (s+1) (d.set (row*n+s) a) (gf_mul g a)]
    exact List.length_set d _ a

theorem vand_inner_unwritten (row n g : Nat) : ∀ (m s : Nat) (d : List Nat) (a : Nat) (t : Nat),
    (∀ col, s ≤ col → col < s + m → t ≠ row*n+col) →
    (((List.range' s m).foldl (fun (st2 : List Nat × Nat) col =>
      (st2.1.set (row*n+col) st2.2, gf_mul g st2.2)) (d, a)).1).getD t 0 = d.getD t 0 := by
  intro m
  induction m with
  | zero => intro s d a t _; rfl
  | succ m ih =>
    intro s d a t ht
    rw [List.range'_succ, List.foldl_cons]
    rw [ih (s+1) (d.set (row*n+s) a) (gf_mul g a) t (fun col h1 h2 => ht col (by omega) (by omega))]
    exact getD_set_ne d a 0 (Ne.symm (ht s (by omega) (by omega)))

theorem vand_inner_written (row n g : Nat) : ∀ (m s : Nat) (d : List Nat) (a : Nat) (col : Nat),
    s ≤ col → col < s + m → row*n+col < d.length →
    (((List.range' s m).foldl (fun (st2 : List Nat × Nat) col =>
      (st2.1.set (row*n+col) st2.2, gf_mul g st2.2)) (d, a)).1).getD (row*n+col) 0
      = (fun x => gf_mul g x)^[col - s] a := by
  intro m
  induction m with
  | zero => intro s d a col h1 h2; omega
  | succ m ih =>
    intro s d a col h1 h2 hlen
    rw [List.range'_succ, List.foldl_cons]
    rcases Nat.eq_or_lt_of_le h1 with he | hlt
    · subst he
      rw [vand_inner_unwritten row n g m (s+1) _ _ _ (fun col' hc1 hc2 hne => by omega)]
      simp only [Nat.sub_self, Function.iterate_zero, id]
      exact getD_set_self d a 0 hlen
    · rw [ih (s+1) (d.set (row*n+s) a) (gf_mul g a) col hlt (by omega)
        (by rw [List.length_set]; exact hlen)]
      have hcs : col - s = (col - (s+1)) + 1 := by omega
      rw [hcs, Function.iterate_succ_apply]

theorem vand_rows_len (n : Nat) : ∀ (j r0 : Nat) (d : List Nat) (g : Nat),
    (((List.range' r0 j).foldl (fun (st : List Nat × Nat) row =>
      let inner := (List.range' 1 (n-1)).foldl (fun (st2 : List Nat × Nat) col =>
        (st2.1.set (row*n+col) st2.2, gf_mul st.2 st2.2)) (st.1, 1)
      (inner.1, gf_mul 2 st.2)) (d, g)).1).length = d.length := by
  intro j
  induction j with
  | zero => intro r0 d g; rfl
  | succ j ih =>
    intro r0 d g
    rw [List.range'_succ, List.foldl_cons]
    rw [ih (r0+1) _ (gf_mul 2 g)]
    exact vand_inner_len r0 n g (n-1) 1 d 1

theorem vand_rows_unwritten (n : Nat) : ∀ (j r0 : Nat) (d : List Nat) (g : Nat) (t : Nat),
    (∀ row col, r0 ≤ row → row < r0+j → 1 ≤ col → col < n → t ≠ row*n+col) →
    (((List.range' r0 j).foldl (fun (st : List Nat × Nat) row =>
      let inner := (List.range' 1 (n-1)).foldl (fun (st2 : List Nat × Nat) col =>
        (st2.1.set (row*n+col) st2.2, gf_mul st.2 st2.2)) (st.1, 1)
      (inner.1, gf_mul 2 st.2)) (d, g)).1).getD t 0 = d.getD t 0 := by
  intro j
  induction j with
  | zero => intro r0 d g t _; rfl
  | succ j ih =>
    intro r0 d g t ht
    rw [List.range'_succ, List.foldl_cons]
    rw [ih (r0+1) _ (gf_mul 2 g) t (fun row col hr1 hr2 hc1 hc2 => ht row col (by omega) (by omega) hc1 hc2)]
    exact vand_inner_unwritten r0 n g (n-1) 1 d 1 t
      (fun col hc1 hc2 => ht r0 col (by omega) (by omega) hc1 (by omega))

theorem vand_rows_written (n : Nat) : ∀ (j r0 : Nat) (d : List Nat) (g : Nat) (r c : Nat),
    r0 ≤ r → r < r0+j → 1 ≤ c → c < n → r*n+c < d.length →
    (((List.range' r0 j).foldl (fun (st : List Nat × Nat) row =>
      let inner := (List.range' 1 (n-1)).foldl (fun (st2 : List Nat × Nat) col =>
        (st2.1.set (row*n+col) st2.2, gf_mul st.2 st2.2)) (st.1, 1)
      (inner.1, gf_mul 2 st.2)) (d, g)).1).getD (r*n+c) 0
      = gf_pow ((fun y => gf_mul 2 y)^[r - r0] g) (c-1) := by
  intro j
  induction j with
  | zero => intro r0 d g r c h1 h2; omega
  | succ j ih =>
    intro r0 d g r c hr1 hr2 hc1 hc2 hlen
    rw [List.range'_succ, List.foldl_cons]
    rcases Nat.eq_or_lt_of_le hr1 with rfl | hlt
    · rw [vand_rows_unwritten n j (r0+1) _ (gf_mul 2 g) (r0*n+c)
        (fun row col hrow1 _ hcol1 hcol2 => Nat.ne_of_lt (rowcol_lt hc2 hrow1))]
      rw [vand_inner_written r0 n g (n-1) 1 d 1 c hc1 (by omega) hlen]
      rw [Nat.sub_self, Function.iterate_zero]
      exact iterate_gf_mul_one g (c-1)
    · rw [ih (r0+1) _ (gf_mul 2 g) r c hlt (by omega) hc1 hc2
        (by rw [vand_inner_len r0 n g (n-1) 1 d 1]; exact hlen)]
      have hcs : r - r0 = (r - (r0+1)) + 1 := by omega
      rw [hcs, Function.iterate_succ_apply]

--------------------------------------------------------------------------------
-- Claim C2 (corrected) and claim C3
--------------------------------------------------------------------------------

/-- C2 counterexample: the claim states that for every valid k, n the
constructor satisfies vand[r][c] = 2^(r*c) (exponent mod the field order) for
every r < k, c < n, with vand[0][0] = 1.  Already for k = n = 2 this fails:
the constructed matrix is [1, 1, 0, 1], so vand[1][0] = 0 (the claim says
2^0 = 1) and vand[1][1] = 1 (the claim says 2^1 = 2). -/
theorem c2_counterexample :
    ¬ (∀ r c, r < 2 → c < 2 →
        (fecNew 2 2).vand_matrix.getD (r*2+c) 0 = gf_pow 2 (r*c)) := by
  intro h
  have h10 := h 1 0 (by omega) (by omega)
  revert h10
  decide

/-- C2 (amended): for every valid k, n (1 <= k <= n <= 256), the vand_matrix
built by the FEC constructor satisfies vand[0][0] = 1, vand[r][0] = 0 for
r >= 1 (column 0 is never written by the fill loop), and
vand[r][c] = 2^(r*(c-1)) in GF(2^8) for every row r < k and column
1 <= c < n. -/
theorem c2_amended (k n r c : Nat) (hk : 0 < k) (hkn : k ≤ n) (hn : n ≤ 256)
    (hr : r < k) (hc : c < n) :
    (fecNew k n).vand_matrix.getD (r*n+c) 0 =
      if c = 0 then (if r = 0 then 1 else 0) else gf_pow 2 (r*(c-1)) := by
  show (((List.range k).foldl (fun (st : List Nat × Nat) row =>
      let inner := (List.range' 1 (n-1)).foldl (fun (st2 : List Nat × Nat) col =>
        (st2.1.set (row*n+col) st2.2, gf_mul st.2 st2.2)) (st.1, 1)
      (inner.1, gf_mul 2 st.2)) (((List.replicate (k*n) 0).set 0 1), 1)).1).getD (r*n+c) 0 = _
  rw [List.range_eq_range']
  by_cases hc0 : c = 0
  · subst hc0
    rw [if_pos rfl]
    rw [vand_rows_unwritten n k 0 _ 1 (r*n+0)
      (fun row col _ _ hc1 hc2 => by
        have := @rowcol_ne_col0 n r row col hc1 hc2
        omega)]
    by_cases hr0 : r = 0
    · subst hr0
      rw [if_pos rfl]
      simp only [Nat.zero_mul, Nat.add_zero]
      exact getD_set_self _ 1 0
        (by rw [List.length_replicate]; exact Nat.mul_pos hk (by omega))
    · rw [if_neg hr0]
      have hrn : 0 < r * n := Nat.mul_pos (Nat.pos_of_ne_zero hr0) (by omega)
      rw [getD_set_ne _ 1 0 (by omega), getD_replicate_zero]
  · rw [if_neg hc0]
    have hlen : r*n+c < ((List.replicate (k*n) (0:Nat)).set 0 1).length := by
      rw [List.length_set, List.length_replicate]
      have h2 : (r+1)*n ≤ k*n := Nat.mul_le_mul_right n (by omega)
      have h3 : (r+1)*n = r*n+n := by ring
      omega
    rw [vand_rows_written n k 0 _ 1 r c (by omega) (by omega) (by omega) hc hlen]
    rw [Nat.sub_zero, iterate_gf_mul_one 2 r, gf_pow_pow_two]

/-- C2 amended witness: the amended statement evaluated at k=2, n=3, r=1,
c=2: vand[1][2] = 2^(1*1) = 2. -/
theorem c2_amended_witness :
    (fecNew 2 3).vand_matrix.getD (1*3+2) 0 =
      if (2:Nat) = 0 then (if (1:Nat) = 0 then 1 else 0) else gf_pow 2 (1*(2-1)) :=
  c2_amended 2 3 1 2 (by omega) (by omega) (by omega) (by omega) (by omega)

/-- C3: for the FEC instance with k=3, n=7, encoding the input
{0x01, 0x02, 0x03} (block size 1) yields 7 one-byte shares, and running
berlekampWelch on all 7 shares at byte index 0 returns the vector
{0x01, 0x02, 0x03, 0x15, 0x69, 0xcc, 0xf2}. -/
theorem c3_concrete_vector :
    Encode (fecNew 3 7) [0x01, 0x02, 0x03] =
      .ok [(0, [0x01]), (1, [0x02]), (2, [0x03]), (3, [0x15]), (4, [0x69]),
           (5, [0xcc]), (6, [0xf2])]
    ∧ berlekampWelch (fecNew 3 7) [[0x01], [0x02], [0x03], [0x15], [0x69], [0xcc], [0xf2]]
        [0, 1, 2, 3, 4, 5, 6] 0 =
      .ok [0x01, 0x02, 0x03, 0x15, 0x69, 0xcc, 0xf2] :=
  ⟨rfl, rfl⟩

--------------------------------------------------------------------------------
-- Claims C5 and C6: Encode emissions and EncodeSingle consistency
--------------------------------------------------------------------------------

theorem map_fst_pair {α : Type} (l : List Nat) (g : Nat -> α) :
    (l.map (fun i => (i, g i))).map Prod.fst = l := by
  induction l with
  | nil => rfl
  | cons a l ih => simp only [List.map_cons, ih]

theorem Encode_eq (f : FEC) (input : List Nat) (hmod : input.length % f.k = 0) :
    Encode f input = .ok (
      (List.range f.k).map (fun i =>
        (i, (input.drop (i*(input.length / f.k))).take (input.length / f.k)))
      ++ (List.range' f.k (f.n - f.k)).map (fun i =>
        (i, (List.range f.k).foldl (fun fec_buf j =>
          addmul fec_buf ((input.drop (j*(input.length / f.k))).take (input.length / f.k))
            (f.enc_matrix.getD (i*f.k+j) 0)) (List.replicate (input.length / f.k) 0)))) := by
  unfold Encode
  rw [if_neg (not_not_intro hmod)]

/-- C5: for every input whose length is a multiple of k, Encode emits exactly
n shares with share numbers 0, 1, ..., n-1 in strictly ascending order
(the emitted numbers are precisely List.range n), and for every i < k the
bytes emitted with share number i are input[i*B .. (i+1)*B] where
B = |input|/k. -/
theorem c5_encode_emissions (f : FEC) (input : List Nat)
    (hk : 0 < f.k) (hkn : f.k ≤ f.n) (hmod : input.length % f.k = 0) :
    ∃ l, Encode f input = .ok l ∧ l.length = f.n ∧ l.map Prod.fst = List.range f.n ∧
      ∀ i, i < f.k →
        l.getD i (0, []) =
          (i, (input.drop (i*(input.length / f.k))).take (input.length / f.k)) := by
  refine ⟨_, Encode_eq f input hmod, ?_, ?_, ?_⟩
  · simp only [List.length_append, List.length_map, List.length_range, List.length_range']
    omega
  · rw [List.map_append, map_fst_pair, map_fst_pair, List.range_eq_range', List.range_eq_range']
    have h3 := List.range'_append 0 f.k (f.n - f.k) 1
    simp only [Nat.zero_add, Nat.one_mul] at h3
    rw [h3]
    congr 1
    omega
  · intro i hi
    rw [List.getD_append _ _ _ i (by simp only [List.length_map, List.length_range]; exact hi)]
    rw [List.getD_eq_getElem _ _ (by simp only [List.length_map, List.length_range]; exact hi)]
    rw [List.getElem_map]
    rw [List.getElem_range]

theorem EncodeSingle_primary_eq (f : FEC) (num : Nat) (input output : List Nat)
    (hnum : num < f.n) (hmod : input.length % f.k = 0)
    (hout : output.length = input.length / f.k) (hlt : num < f.k) :
    EncodeSingle f num input output =
      .ok ((input.drop (num*(input.length / f.k))).take (input.length / f.k)) := by
  unfold EncodeSingle
  rw [if_neg (by omega), if_neg (not_not_intro hmod), if_neg (not_not_intro hout), if_pos hlt]

theorem EncodeSingle_parity_eq (f : FEC) (num : Nat) (input output : List Nat)
    (hnum : num < f.n) (hmod : input.length % f.k = 0)
    (hout : output.length = input.length / f.k) (hge : ¬ num < f.k) :
    EncodeSingle f num input output =
      .ok ((List.range f.k).foldl (fun ob i =>
        addmul ob ((input.drop (i*(input.length / f.k))).take (input.length / f.k))
          (f.enc_matrix.getD (num*f.k+i) 0)) (List.replicate output.length 0)) := by
  unfold EncodeSingle
  rw [if_neg (by omega), if_neg (not_not_intro hmod), if_neg (not_not_intro hout), if_neg hge]

/-- C6: for every num in [0, n) and every input whose length is a multiple of
k, with an output buffer of exactly |input|/k bytes, EncodeSingle(num, input,
output) produces exactly the bytes of the num-th share emitted by
Encode(input). -/
theorem c6_encode_single_consistent (f : FEC) (num : Nat) (input output : List Nat)
    (hnum : num < f.n) (hmod : input.length % f.k = 0)
    (hout : output.length = input.length / f.k) :
    ∃ bs l, EncodeSingle f num input output = .ok bs ∧ Encode f input = .ok l ∧
      l.getD num (0, []) = (num, bs) := by
  by_cases hlt : num < f.k
  · refine ⟨_, _, EncodeSingle_primary_eq f num input output hnum hmod hout hlt,
      Encode_eq f input hmod, ?_⟩
    rw [List.getD_append _ _ _ num (by simp only [List.length_map, List.length_range]; exact hlt)]
    rw [List.getD_eq_getElem _ _ (by simp only [List.length_map, List.length_range]; exact hlt)]
    rw [List.getElem_map]
    rw [List.getElem_range]
  · refine ⟨_, _, EncodeSingle_parity_eq f num input output hnum hmod hout hlt,
      Encode_eq f input hmod, ?_⟩
    rw [hout]
    rw [List.getD_append_right _ _ _ num (by simp only [List.length_map, List.length_range]; omega)]
    rw [List.getD_eq_getElem _ _ (by
      simp only [List.length_map, List.length_range, List.length_range']
      omega)]
    rw [List.getElem_map]
    rw [List.getElem_range']
    simp only [List.length_map, List.length_range, Nat.one_mul]
    have hidx : f.k + (num - f.k) = num := by omega
    rw [hidx]

--------------------------------------------------------------------------------
-- Claim C9: Rebuild and InvalidShareNum
--------------------------------------------------------------------------------

theorem getD_mem_or_default {α : Type} (l : List α) (i : Nat) (d : α) :
    l.getD i d ∈ l ∨ l.getD i d = d := by
  by_cases h : i < l.length
  · left
    rw [List.getD_eq_getElem l d h]
    exact List.getElem_mem h
  · right
    exact List.getD_eq_default l d (by omega)

theorem foldlM_ok {σ α : Type} (step : σ -> α -> Except Error σ)
    (hstep : ∀ s a, ∃ s', step s a = .ok s') :
    ∀ (l : List α) (st : σ), ∃ st', l.foldlM step st = .ok st' := by
  intro l
  induction l with
  | nil => intro st; exact ⟨st, rfl⟩
  | cons a l ih =>
    intro st
    obtain ⟨s1, hs1⟩ := hstep st a
    obtain ⟨s2, hs2⟩ := ih s1
    refine ⟨s2, ?_⟩
    rw [List.foldlM_cons, hs1]
    exact hs2

theorem foldlM_error {σ α : Type} (step : σ -> α -> Except Error σ) (P : Error -> Prop)
    (hstep : ∀ s a e, step s a = .error e → P e) :
    ∀ (l : List α) (st : σ) (e : Error), l.foldlM step st = .error e → P e := by
  intro l
  induction l with
  | nil =>
    intro st e h
    rw [List.foldlM_nil] at h
    exact absurd h (by simp [pure, Except.pure])
  | cons a l ih =>
    intro st e h
    rw [List.foldlM_cons] at h
    cases hs : step st a with
    | error e2 =>
      rw [hs] at h
      have he : e2 = e := by
        have : (Except.error e2 : Except Error σ) = .error e := h
        exact Except.error.inj this
      exact he ▸ hstep st a e2 hs
    | ok s1 =>
      rw [hs] at h
      exact ih s1 e h

theorem pivotSearch_error (k : Nat) (ipiv : List Bool) (col : Nat) (matrix : List Nat) (e : Error)
    (h : pivotSearch k ipiv col matrix = .error e) : e = .PivotNotFound := by
  unfold pivotSearch at h
  split at h
  · simp at h
  · split at h
    · simp at h
    · exact (Except.error.inj h).symm

theorem except_bind_error {σ τ : Type} (x : Except Error σ) (g : σ -> Except Error τ) (e : Error)
    (h : (x >>= g) = .error e) : x = .error e ∨ ∃ s, x = .ok s ∧ g s = .error e := by
  cases x with
  | error e2 =>
    left
    have he : e2 = e := Except.error.inj h
    rw [he]
  | ok s =>
    right
    exact ⟨s, rfl, h⟩

theorem if_error_eq {τ : Type} (c : Prop) [Decidable c] (e0 e : Error) (x : τ)
    (h : (if c then Except.error e0 else pure x) = Except.error e) : e = e0 := by
  split at h
  · exact (Except.error.inj h).symm
  · exact absurd h (by simp [pure, Except.pure])

theorem invertMatrix_error (matrix : List Nat) (k : Nat) (e : Error)
    (h : invertMatrix matrix k = .error e) : e = .SingularMatrix ∨ e = .PivotNotFound := by
  unfold invertMatrix at h
  rcases except_bind_error _ _ _ h with herr | ⟨s, _, hcont⟩
  · revert herr
    refine foldlM_error _ (fun e0 => e0 = Error.SingularMatrix ∨ e0 = Error.PivotNotFound) ?_ _ _ _
    intro st a e0 hst
    obtain ⟨m, ipiv, indxr, indxc⟩ := st
    dsimp only at hst
    rcases except_bind_error _ _ _ hst with herr2 | ⟨t, _, hcont2⟩
    · right
      exact pivotSearch_error k ipiv a m _ herr2
    · obtain ⟨ipiv2, icol, irow⟩ := t
      dsimp only at hcont2
      exact Or.inl (if_error_eq _ _ _ _ hcont2)
  · obtain ⟨m, ipiv, indxr, indxc⟩ := s
    dsimp only at hcont
    exact absurd hcont (by simp [pure, Except.pure])

theorem mem_sortedInsert (s x : Int × List Nat) :
    ∀ (m : List (Int × List Nat)), x ∈ sortedInsert m s → x ∈ m ∨ x = s := by
  intro m
  induction m with
  | nil =>
    intro h
    rw [sortedInsert] at h
    right
    exact (List.mem_singleton.mp h)
  | cons t rest ih =>
    intro h
    rw [sortedInsert] at h
    split at h
    · rcases List.mem_cons.mp h with h1 | h2
      · right; exact h1
      · left; exact h2
    · split at h
      · left; exact h
      · rcases List.mem_cons.mp h with h1 | h2
        · left; exact h1 ▸ List.mem_cons_self t rest
        · rcases ih h2 with h3 | h3
          · left; exact List.mem_cons_of_mem t h3
          · right; exact h3

theorem mem_foldl_sortedInsert (l : List (Int × List Nat)) :
    ∀ (m : List (Int × List Nat)) (x : Int × List Nat),
      x ∈ l.foldl sortedInsert m → x ∈ m ∨ x ∈ l := by
  induction l with
  | nil => intro m x h; left; exact h
  | cons a l ih =>
    intro m x h
    rw [List.foldl_cons] at h
    rcases ih (sortedInsert m a) x h with h1 | h1
    · rcases mem_sortedInsert a x m h1 with h2 | h2
      · left; exact h2
      · right; exact h2 ▸ List.mem_cons_self a l
    · right; exact List.mem_cons_of_mem a h1

theorem share_num_bound (shares : List (Int × List Nat)) (nn : Nat) (hn : 0 < nn)
    (hrange : ∀ s ∈ shares, 0 ≤ s.1 ∧ s.1 < Int.ofNat nn) (idx : Nat) :
    ¬ ((shares.getD idx (0, [])).1 < 0 ∨ (shares.getD idx (0, [])).1 ≥ Int.ofNat nn) := by
  rcases getD_mem_or_default shares idx (0, []) with hm | hd
  · obtain ⟨h1, h2⟩ := hrange _ hm
    simp only [Int.ofNat_eq_coe] at h2 ⊢
    omega
  · rw [hd]
    simp only [Int.ofNat_eq_coe]
    omega

/-- C9 counterexample: the claim says Rebuild fails with InvalidShareNum
exactly when the collection contains a share whose num is outside [0, n) (or a
duplicated num).  For FEC(k=2, n=3) and shares numbered 0, 1 and 5, the share
number 5 is outside [0, 3), yet Rebuild succeeds: the sorted walk selects
shares 0 and 1, never examines share 5, and emits the two primary shares. -/
theorem c9_counterexample :
    (5 : Int) ≥ Int.ofNat (fecNew 2 3).n ∧
    Rebuild (fecNew 2 3) [(0, [7]), (1, [9]), (5, [1])] = .ok [(0, [7]), (1, [9])] :=
  ⟨by decide, rfl⟩

/-- C9 (amended): a share with num outside [0, n) raises InvalidShareNum only
when it is among the k selected shares, and duplicated nums are merged by the
sorted-map construction rather than raising an error; in particular, whenever
every share num lies in [0, n) — so certainly for at least k shares with
distinct nums in [0, n) — Rebuild never fails with InvalidShareNum. -/
theorem c9_amended (f : FEC) (shares : List (Int × List Nat)) (hn : 0 < f.n)
    (_hlen : f.k ≤ shares.length) (_hdist : (shares.map Prod.fst).Nodup)
    (hrange : ∀ s ∈ shares, 0 ≤ s.1 ∧ s.1 < Int.ofNat f.n) :
    Rebuild f shares ≠ .error .InvalidShareNum := by
  intro hbad
  unfold Rebuild at hbad
  have hrange2 : ∀ s ∈ shares.foldl sortedInsert [], 0 ≤ s.1 ∧ s.1 < Int.ofNat f.n := by
    intro s hs
    rcases mem_foldl_sortedInsert shares [] s hs with h | h
    · exact absurd h (List.not_mem_nil s)
    · exact hrange s h
  unfold RebuildSorted at hbad
  split at hbad
  · exact absurd (Except.error.inj hbad) (by decide)
  · rcases except_bind_error _ _ _ hbad with herr | ⟨st, _, hcont⟩
    · refine foldlM_error _ (fun _ => False) ?_ _ _ _ herr
      intro s a e hst
      obtain ⟨bi, ei, mi, sz, dec, idx, bg, out⟩ := s
      dsimp only at hst
      by_cases hcase : ((shares.foldl sortedInsert []).getD bi (0, [])).1 = Int.ofNat a
      · rw [if_pos hcase] at hst
        dsimp only at hst
        rw [if_neg (share_num_bound _ f.n hn hrange2 bi)] at hst
        exact absurd hst (by simp [pure, Except.pure])
      · rw [if_neg hcase] at hst
        dsimp only at hst
        rw [if_neg (share_num_bound _ f.n hn hrange2 ei)] at hst
        exact absurd hst (by simp [pure, Except.pure])
    · obtain ⟨bi, ei, mi, sz, dec, idx, bg, out⟩ := st
      dsimp only at hcont
      split at hcont
      · exact absurd hcont (by simp [pure, Except.pure])
      · rcases except_bind_error _ _ _ hcont with herr2 | ⟨dec2, _, hcont2⟩
        · rcases invertMatrix_error _ _ _ herr2 with h | h <;> exact absurd h (by decide)
        · exact absurd hcont2 (by simp [pure, Except.pure])

/-- C9 amended witness: two in-range shares for FEC(2, 3). -/
theorem c9_amended_witness :
    Rebuild (fecNew 2 3) [((1:Int), [(2:Nat)]), (2, [6])] ≠ .error .InvalidShareNum :=
  c9_amended (fecNew 2 3) [(1, [2]), (2, [6])] (by decide) (by decide) (by decide)
    (by intro s hs; fin_cases hs <;> constructor <;> decide)

--------------------------------------------------------------------------------
-- Claim C10: berlekampWelch reads only the first dim = k + 2*((r-k)/2) shares
--------------------------------------------------------------------------------

theorem foldl_congr_mem {σ α : Type} (step1 step2 : σ -> α -> σ) :
    ∀ (l : List α), (∀ i ∈ l, ∀ s, step1 s i = step2 s i) →
      ∀ init, l.foldl step1 init = l.foldl step2 init := by
  intro l
  induction l with
  | nil => intro _ init; rfl
  | cons a l ih =>
    intro h init
    rw [List.foldl_cons, List.foldl_cons, h a (List.mem_cons_self a l)]
    exact ih (fun i hi s => h i (List.mem_cons_of_mem a hi) s) _

theorem berlekampWelch_agree (f : FEC) (ds es : List (List Nat)) (nums : List Nat)
    (index : Nat) (hlen : es.length = ds.length)
    (hagree : ∀ i, i < f.k + 2*((ds.length - f.k)/2) → ds.getD i [] = es.getD i []) :
    berlekampWelch f ds nums index = berlekampWelch f es nums index := by
  unfold berlekampWelch
  rw [hlen]
  by_cases he0 : (ds.length - f.k)/2 = 0
  · rw [if_pos he0, if_pos he0]
  · rw [if_neg he0, if_neg he0]
    have hfold : ∀ init, (List.range ((ds.length - f.k)/2 + f.k + (ds.length - f.k)/2)).foldl
        (fun (st : GFMat × GFMat × List Nat) i =>
          let x_i := eval_point (nums.getD i 0)
          let r_i := (ds.getD i []).getD index 0
          let fv := st.2.2.set i (gf_mul (gf_pow x_i ((ds.length - f.k)/2)) r_i)
          let sa := (List.range ((ds.length - f.k)/2 + f.k)).foldl (fun (st2 : GFMat × GFMat) j =>
            (st2.1.set i j (gf_pow x_i j), if i = j then st2.2.set i j 1 else st2.2)) (st.1, st.2.1)
          let sa2 := (List.range ((ds.length - f.k)/2)).foldl (fun (st2 : GFMat × GFMat) t =>
            let j := t + ((ds.length - f.k)/2 + f.k)
            (st2.1.set i j (gf_mul (gf_pow x_i t) r_i),
             if i = j then st2.2.set i j 1 else st2.2)) sa
          (sa2.1, sa2.2, fv)) init
      = (List.range ((ds.length - f.k)/2 + f.k + (ds.length - f.k)/2)).foldl
        (fun (st : GFMat × GFMat × List Nat) i =>
          let x_i := eval_point (nums.getD i 0)
          let r_i := (es.getD i []).getD index 0
          let fv := st.2.2.set i (gf_mul (gf_pow x_i ((ds.length - f.k)/2)) r_i)
          let sa := (List.range ((ds.length - f.k)/2 + f.k)).foldl (fun (st2 : GFMat × GFMat) j =>
            (st2.1.set i j (gf_pow x_i j), if i = j then st2.2.set i j 1 else st2.2)) (st.1, st.2.1)
          let sa2 := (List.range ((ds.length - f.k)/2)).foldl (fun (st2 : GFMat × GFMat) t =>
            let j := t + ((ds.length - f.k)/2 + f.k)
            (st2.1.set i j (gf_mul (gf_pow x_i t) r_i),
             if i = j then st2.2.set i j 1 else st2.2)) sa
          (sa2.1, sa2.2, fv)) init := by
      intro init
      apply foldl_congr_mem
      intro i hi st
      have hi2 : i < f.k + 2*((ds.length - f.k)/2) := by
        have := List.mem_range.mp hi
        omega
      rw [hagree i hi2]
    dsimp only
    rw [hfold]

/-- C10: berlekampWelch called with r shares builds its dim x dim linear
system from only the first dim = k + 2*((r-k)/2) shares, one equation per
such share; consequently, when r - k is odd, the byte values of the last
(highest-numbered) share have no influence on the returned recovery
vector. -/
theorem c10_last_share_no_influence (f : FEC) (ds es : List (List Nat)) (nums : List Nat)
    (index : Nat) (hlen : es.length = ds.length)
    (hodd : (ds.length - f.k) % 2 = 1)
    (hagree : ∀ i, i + 1 < ds.length → ds.getD i [] = es.getD i []) :
    berlekampWelch f ds nums index = berlekampWelch f es nums index := by
  apply berlekampWelch_agree f ds es nums index hlen
  intro i hi
  apply hagree
  omega

/-- C10 witness: FEC(3, 7) with the 6 shares numbered 0..5 (r - k = 3 is
odd); changing the byte of share number 5 does not change the result. -/
theorem c10_witness :
    berlekampWelch (fecNew 3 7) [[1], [2], [3], [0x15], [0x69], [0xcc]] [0, 1, 2, 3, 4, 5] 0 =
    berlekampWelch (fecNew 3 7) [[1], [2], [3], [0x15], [0x69], [0x99]] [0, 1, 2, 3, 4, 5] 0 :=
  c10_last_share_no_influence (fecNew 3 7) [[1], [2], [3], [0x15], [0x69], [0xcc]]
    [[1], [2], [3], [0x15], [0x69], [0x99]] [0, 1, 2, 3, 4, 5] 0 (by decide) (by decide)
    (by
      intro i hi
      have h5 : i < 5 := by
        simp only [List.length_cons, List.length_nil] at hi
        omega
      interval_cases i <;> rfl)

--------------------------------------------------------------------------------
-- Claims C7 and C8: the GFPoly::div contract.  GFPoly.index is the
-- coefficient-of-x^w accessor; polynomial product coefficients are given by
-- the convolution mulCoef, so that the contract q*b + r = p reads
-- mulCoef q b w ^^^ index r w = index p w for every power w.
--------------------------------------------------------------------------------

theorem index_of_le {p : GFPoly} {w : Nat} (h : p.length ≤ w) : GFPoly.index p w = 0 := by
  unfold GFPoly.index
  rw [if_neg (by omega)]

theorem index_lt {p : GFPoly} (hp : ∀ v ∈ p, v < 256) (w : Nat) : GFPoly.index p w < 256 := by
  unfold GFPoly.index
  split
  · next h =>
    rw [List.getD_eq_getElem p 0 (by omega)]
    exact hp _ (List.getElem_mem _)
  · omega

theorem index_cons (a : Nat) (p : GFPoly) (w : Nat) :
    GFPoly.index (a :: p) w = if w = p.length then a else GFPoly.index p w := by
  by_cases hw : w = p.length
  · rw [if_pos hw, hw]
    unfold GFPoly.index
    rw [if_pos (by simp only [List.length_cons]; omega)]
    have h2 : (a::p).length - 1 - p.length = 0 := by
      simp only [List.length_cons]
      omega
    rw [h2, List.getD_cons_zero]
  · rw [if_neg hw]
    unfold GFPoly.index
    rcases Nat.lt_trichotomy w p.length with h | h | h
    · rw [if_pos (by simp only [List.length_cons]; omega), if_pos h]
      have h2 : (a::p).length - 1 - w = (p.length - 1 - w) + 1 := by
        simp only [List.length_cons]
        omega
      rw [h2, List.getD_cons_succ]
    · exact absurd h hw
    · rw [if_neg (by simp only [List.length_cons]; omega), if_neg (by omega)]

theorem index_leading (l : GFPoly) (h : 0 < l.length) :
    GFPoly.index l (l.length - 1) = l.headD 0 := by
  cases l with
  | nil => simp at h
  | cons a t =>
    rw [index_cons]
    simp only [List.length_cons, List.headD_cons]
    rw [if_pos (by omega)]

theorem index_pad (p : GFPoly) (m w : Nat) :
    GFPoly.index (p ++ List.replicate m 0) w =
      if w < m then 0 else GFPoly.index p (w - m) := by
  unfold GFPoly.index
  by_cases h1 : w < m
  · rw [if_pos h1, if_pos (by simp only [List.length_append, List.length_replicate]; omega)]
    rw [List.getD_append_right _ _ _ _ (by simp only [List.length_append, List.length_replicate]; omega)]
    exact getD_replicate_zero m _
  · rw [if_neg h1]
    by_cases h2 : w - m < p.length
    · rw [if_pos (by simp only [List.length_append, List.length_replicate]; omega), if_pos h2]
      rw [List.getD_append _ _ _ _ (by simp only [List.length_append, List.length_replicate]; omega)]
      congr 1
      simp only [List.length_append, List.length_replicate]
      omega
    · rw [if_neg (by simp only [List.length_append, List.length_replicate]; omega), if_neg h2]

theorem index_scale (p : GFPoly) (f w : Nat) :
    GFPoly.index (GFPoly.scale p f) w = gf_mul (GFPoly.index p w) f := by
  unfold GFPoly.index GFPoly.scale
  by_cases h : w < p.length
  · rw [if_pos (by simp only [List.length_map]; omega), if_pos h]
    rw [List.getD_eq_getElem _ 0 (by simp only [List.length_map]; omega)]
    rw [List.getD_eq_getElem _ 0 (by omega)]
    rw [List.getElem_map]
    congr 2
    simp only [List.length_map]
  · rw [if_neg (by simp only [List.length_map]; omega), if_neg h, gf_zero_mul]

theorem index_add (a b : GFPoly) (w : Nat) :
    GFPoly.index (GFPoly.add a b) w = GFPoly.index a w ^^^ GFPoly.index b w := by
  by_cases h : w < max a.length b.length
  · unfold GFPoly.add
    rw [GFPoly.index, if_pos (by simp only [List.length_map, List.length_range]; omega)]
    rw [List.getD_eq_getElem _ 0 (by simp only [List.length_map, List.length_range]; omega)]
    rw [List.getElem_map, List.getElem_range]
    show gf_add _ _ = _
    unfold gf_add
    congr 2 <;>
      · congr 1
        simp only [List.length_map, List.length_range]
        omega
  · rw [index_of_le (show (GFPoly.add a b).length ≤ w by rw [GFPoly.length_add]; omega),
      index_of_le (show a.length ≤ w by omega),
      index_of_le (show b.length ≤ w by omega)]
    rfl

theorem index_dropWhile_zero (p : GFPoly) (w : Nat) :
    GFPoly.index (GFPoly.remove_leading_zeroes p) w = GFPoly.index p w := by
  unfold GFPoly.remove_leading_zeroes
  induction p with
  | nil => rfl
  | cons a t ih =>
    by_cases ha : a = 0
    · rw [List.dropWhile_cons_of_pos (by simp [ha]), ih, index_cons]
      by_cases hw : w = t.length
      · rw [if_pos hw, ha]
        exact index_of_le (p := t) (w := w) (by omega)
      · rw [if_neg hw]
    · rw [List.dropWhile_cons_of_neg (by simp [ha])]

theorem index_striprem (p : GFPoly) (w : Nat) :
    GFPoly.index (GFPoly.remove_leading_keep_last p) w = GFPoly.index p w := by
  induction p with
  | nil => rfl
  | cons a t ih =>
    rw [GFPoly.remove_leading_keep_last]
    split
    · next h =>
      rw [ih, index_cons]
      by_cases hw : w = t.length
      · rw [if_pos hw, h.1]
        exact index_of_le (p := t) (w := w) (by omega)
      · rw [if_neg hw]
    · rfl

theorem length_striprem_le (p : GFPoly) :
    (GFPoly.remove_leading_keep_last p).length ≤ p.length := by
  induction p with
  | nil => exact Nat.le_refl _
  | cons a t ih =>
    rw [GFPoly.remove_leading_keep_last]
    split
    · exact le_trans ih (by simp)
    · exact Nat.le_refl _

theorem index_tail_of_head_zero (p : GFPoly) (h : p.headD 0 = 0) (w : Nat) :
    GFPoly.index (p.drop 1) w = GFPoly.index p w := by
  cases p with
  | nil => rfl
  | cons a t =>
    simp only [List.headD_cons] at h
    simp only [List.drop_succ_cons, List.drop_zero]
    rw [index_cons]
    by_cases hw : w = t.length
    · rw [if_pos hw, h]
      exact index_of_le (by omega)
    · rw [if_neg hw]

theorem strip_eq_nil_iff (p : GFPoly) :
    GFPoly.remove_leading_zeroes p = [] ↔ p.is_zero = true := by
  unfold GFPoly.remove_leading_zeroes GFPoly.is_zero
  induction p with
  | nil => simp
  | cons a t ih =>
    by_cases ha : a = 0
    · rw [List.dropWhile_cons_of_pos (by simp [ha])]
      simp [ha, ih]
    · rw [List.dropWhile_cons_of_neg (by simp [ha])]
      simp [ha]

theorem strip_headD_ne_zero (p : GFPoly) (h : GFPoly.remove_leading_zeroes p ≠ []) :
    (GFPoly.remove_leading_zeroes p).headD 0 ≠ 0 := by
  unfold GFPoly.remove_leading_zeroes at *
  induction p with
  | nil => exact absurd rfl h
  | cons a t ih =>
    by_cases ha : a = 0
    · rw [List.dropWhile_cons_of_pos (by simp [ha])] at h ⊢
      exact ih h
    · rw [List.dropWhile_cons_of_neg (by simp [ha])] at h ⊢
      simpa using ha

theorem mulCoefAux_nil (b : GFPoly) (w : Nat) : ∀ u, mulCoefAux [] b w u = 0 := by
  intro u
  induction u with
  | zero =>
    show gf_mul (GFPoly.index [] 0) (GFPoly.index b w) = 0
    rw [index_of_le (by simp), gf_zero_mul]
  | succ u ih =>
    show gf_mul (GFPoly.index [] (u+1)) (GFPoly.index b (w - (u+1))) ^^^ mulCoefAux [] b w u = 0
    rw [index_of_le (by simp), gf_zero_mul, ih]
    rfl

theorem mulCoef_nil (b : GFPoly) (w : Nat) : mulCoef [] b w = 0 :=
  mulCoefAux_nil b w w

theorem mulCoefAux_congr (a b b2 : GFPoly) (hb : ∀ v, GFPoly.index b v = GFPoly.index b2 v)
    (w : Nat) : ∀ u, mulCoefAux a b w u = mulCoefAux a b2 w u := by
  intro u
  induction u with
  | zero =>
    show gf_mul _ (GFPoly.index b w) = gf_mul _ (GFPoly.index b2 w)
    rw [hb w]
  | succ u ih =>
    show gf_mul _ (GFPoly.index b (w - (u+1))) ^^^ mulCoefAux a b w u = _
    rw [hb, ih]
    rfl

theorem mulCoefAux_cons (x : Nat) (t b : GFPoly) (w : Nat) : ∀ u,
    mulCoefAux (x :: t) b w u =
      mulCoefAux t b w u ^^^
        (if t.length ≤ u then gf_mul x (GFPoly.index b (w - t.length)) else 0) := by
  intro u
  induction u with
  | zero =>
    show gf_mul (GFPoly.index (x :: t) 0) (GFPoly.index b w) =
      gf_mul (GFPoly.index t 0) (GFPoly.index b w) ^^^
        (if t.length ≤ 0 then gf_mul x (GFPoly.index b (w - t.length)) else 0)
    rw [index_cons]
    by_cases h0 : (0:Nat) = t.length
    · rw [if_pos h0, if_pos (show t.length ≤ 0 by omega)]
      rw [index_of_le (p := t) (w := 0) (by omega), gf_zero_mul, Nat.zero_xor]
      rw [show w - t.length = w by omega]
    · rw [if_neg h0, if_neg (show ¬ t.length ≤ 0 by omega), Nat.xor_zero]
  | succ u ih =>
    show gf_mul (GFPoly.index (x :: t) (u+1)) (GFPoly.index b (w - (u+1))) ^^^ mulCoefAux (x :: t) b w u =
      gf_mul (GFPoly.index t (u+1)) (GFPoly.index b (w - (u+1))) ^^^ mulCoefAux t b w u ^^^
        (if t.length ≤ u + 1 then gf_mul x (GFPoly.index b (w - t.length)) else 0)
    rw [ih, index_cons]
    by_cases hu : (u+1) = t.length
    · rw [if_pos hu, if_neg (show ¬ t.length ≤ u by omega), Nat.xor_zero,
        if_pos (show t.length ≤ u + 1 by omega)]
      rw [index_of_le (p := t) (w := u+1) (by omega), gf_zero_mul, Nat.zero_xor]
      rw [show w - (u+1) = w - t.length by omega]
      exact Nat.xor_comm _ _
    · rw [if_neg hu]
      by_cases htu : t.length ≤ u
      · rw [if_pos htu, if_pos (show t.length ≤ u + 1 by omega)]
        rw [← Nat.xor_assoc]
      · rw [if_neg htu, if_neg (show ¬ t.length ≤ u + 1 by omega), Nat.xor_zero, Nat.xor_zero]

theorem mulCoef_cons (x : Nat) (t b : GFPoly) (w : Nat) :
    mulCoef (x :: t) b w =
      mulCoef t b w ^^^
        (if t.length ≤ w then gf_mul x (GFPoly.index b (w - t.length)) else 0) :=
  mulCoefAux_cons x t b w w

theorem mulCoef_congr (a b b2 : GFPoly) (hb : ∀ v, GFPoly.index b v = GFPoly.index b2 v)
    (w : Nat) : mulCoef a b w = mulCoef a b2 w :=
  mulCoefAux_congr a b b2 hb w w

theorem add_mem_lt {a c : GFPoly} (ha : ∀ v ∈ a, v < 256) (hc : ∀ v ∈ c, v < 256) :
    ∀ v ∈ GFPoly.add a c, v < 256 := by
  intro v hv
  unfold GFPoly.add at hv
  rw [List.mem_map] at hv
  obtain ⟨j, _, hj⟩ := hv
  rw [← hj]
  show gf_add _ _ < 256
  unfold gf_add
  exact xor_lt_256 (index_lt ha _) (index_lt hc _)

theorem padded_mem_lt (b : GFPoly) (coef m : Nat) :
    ∀ v ∈ GFPoly.scale b coef ++ List.replicate m 0, v < 256 := by
  intro v hv
  rcases List.mem_append.mp hv with h | h
  · unfold GFPoly.scale at h
    rw [List.mem_map] at h
    obtain ⟨x, _, hx⟩ := h
    rw [← hx]
    exact gf_mul_lt _ _
  · rw [List.eq_of_mem_replicate h]
    omega

/-- Main invariant of the GFPoly::div loop: with a stripped nonzero divisor b
and byte-valued dividend p, the loop never raises AlgebraError; it returns
the accumulated quotient q ++ t and a remainder r shorter than b such that
p = t*b + r coefficient-wise. -/
theorem divLoop_spec (b : GFPoly) (hbpos : 0 < b.length)
    (hb0 : b.headD 0 ≠ 0) (hblt : ∀ v ∈ b, v < 256) :
    ∀ (fuel : Nat) (p q : GFPoly), p.length ≤ fuel → (∀ v ∈ p, v < 256) →
      ∃ t r, GFPoly.divLoop b fuel p q = .ok (q ++ t, r) ∧
        (∀ w, GFPoly.index p w = mulCoef t b w ^^^ GFPoly.index r w) ∧
        (b.length ≤ p.length → t.length = p.length + 1 - b.length) ∧
        (p.length < b.length → t = [] ∧ r = p) ∧
        r.length < b.length := by
  intro fuel
  induction fuel with
  | zero =>
    intro p q hf hp
    have hp0 : p = [] := List.length_eq_zero.mp (by omega)
    subst hp0
    refine ⟨[], [], ?_, ?_, ?_, ?_, ?_⟩
    · show GFPoly.divLoop b 0 [] q = .ok (q ++ [], [])
      rw [List.append_nil]
      rfl
    · intro w
      have h0 : GFPoly.index ([]:GFPoly) w = 0 := index_of_le (by simp)
      rw [h0, mulCoef_nil]
      rfl
    · intro hle
      simp only [List.length_nil] at hle
      omega
    · intro _
      exact ⟨rfl, rfl⟩
    · simpa using hbpos
  | succ fuel ih =>
    intro p q hf hp
    by_cases h : b.length ≤ p.length
    · have hppos : 0 < p.length := by omega
      have hpadlen : (GFPoly.scale b (gf_div (GFPoly.index p (p.length - 1)) (GFPoly.index b (b.length - 1))) ++ List.replicate (p.length - b.length) 0).length = p.length := by
        rw [List.length_append, GFPoly.length_scale, List.length_replicate]
        omega
      have haddlen : (GFPoly.add p (GFPoly.scale b (gf_div (GFPoly.index p (p.length - 1)) (GFPoly.index b (b.length - 1))) ++ List.replicate (p.length - b.length) 0)).length = p.length := by
        rw [GFPoly.length_add, hpadlen]
        omega
      have hlead := index_leading (GFPoly.add p (GFPoly.scale b (gf_div (GFPoly.index p (p.length - 1)) (GFPoly.index b (b.length - 1))) ++ List.replicate (p.length - b.length) 0)) (by rw [haddlen]; omega)
      rw [haddlen] at hlead
      have hheadval : GFPoly.index (GFPoly.add p (GFPoly.scale b (gf_div (GFPoly.index p (p.length - 1)) (GFPoly.index b (b.length - 1))) ++ List.replicate (p.length - b.length) 0)) (p.length - 1) = 0 := by
        rw [index_add, index_pad]
        rw [if_neg (show ¬ (p.length - 1 < p.length - b.length) by omega)]
        rw [show p.length - 1 - (p.length - b.length) = b.length - 1 by omega]
        rw [index_scale]
        rw [gf_mul_cancel (GFPoly.index p (p.length - 1)) (GFPoly.index b (b.length - 1))
          (index_lt hp _) (by rw [index_leading b hbpos]; exact hb0) (index_lt hblt _)]
        exact Nat.xor_self _
      have hhead : (GFPoly.add p (GFPoly.scale b (gf_div (GFPoly.index p (p.length - 1)) (GFPoly.index b (b.length - 1))) ++ List.replicate (p.length - b.length) 0)).headD 0 = 0 := by
        rw [← hlead]
        exact hheadval
      have hp2lt : ∀ v ∈ (GFPoly.add p (GFPoly.scale b (gf_div (GFPoly.index p (p.length - 1)) (GFPoly.index b (b.length - 1))) ++ List.replicate (p.length - b.length) 0)).drop 1, v < 256 := by
        intro v hv
        exact add_mem_lt hp (padded_mem_lt b (gf_div (GFPoly.index p (p.length - 1)) (GFPoly.index b (b.length - 1))) (p.length - b.length)) v
          ((List.drop_subset 1 _) hv)
      obtain ⟨t1, r, heq, hcoeffs, hlen1, hshort1, hrlen⟩ :=
        ih ((GFPoly.add p (GFPoly.scale b (gf_div (GFPoly.index p (p.length - 1)) (GFPoly.index b (b.length - 1))) ++ List.replicate (p.length - b.length) 0)).drop 1) (q ++ [gf_div (GFPoly.index p (p.length - 1)) (GFPoly.index b (b.length - 1))])
          (by rw [List.length_drop, haddlen]; omega) hp2lt
      have hm : t1.length = p.length - b.length := by
        by_cases hc : b.length ≤ p.length - 1
        · have h3 := hlen1 (by rw [List.length_drop, haddlen]; omega)
          rw [List.length_drop, haddlen] at h3
          omega
        · have h3 := (hshort1 (by rw [List.length_drop, haddlen]; omega)).1
          rw [h3]
          simp only [List.length_nil]
          omega
      refine ⟨(gf_div (GFPoly.index p (p.length - 1)) (GFPoly.index b (b.length - 1))) :: t1, r, ?_, ?_, ?_, ?_, hrlen⟩
      · show GFPoly.divLoop b (fuel+1) p q = _
        simp only [GFPoly.divLoop]
        rw [if_pos h, if_neg (not_not_intro hhead), heq, List.append_assoc]
        rfl
      · intro w
        rw [mulCoef_cons]
        have hstep := hcoeffs w
        rw [index_tail_of_head_zero _ hhead, index_add] at hstep
        have hpad : GFPoly.index (GFPoly.scale b (gf_div (GFPoly.index p (p.length - 1)) (GFPoly.index b (b.length - 1))) ++ List.replicate (p.length - b.length) 0) w =
            (if t1.length ≤ w then gf_mul (gf_div (GFPoly.index p (p.length - 1)) (GFPoly.index b (b.length - 1))) (GFPoly.index b (w - t1.length)) else 0) := by
          rw [index_pad, hm]
          by_cases hw : w < p.length - b.length
          · rw [if_pos hw, if_neg (by omega)]
          · rw [if_neg hw, if_pos (by omega), index_scale, gf_mul_comm]
        have h2 : GFPoly.index p w =
            (mulCoef t1 b w ^^^ GFPoly.index r w) ^^^ GFPoly.index (GFPoly.scale b (gf_div (GFPoly.index p (p.length - 1)) (GFPoly.index b (b.length - 1))) ++ List.replicate (p.length - b.length) 0) w := by
          rw [← hstep, Nat.xor_assoc, Nat.xor_self, Nat.xor_zero]
        rw [hpad] at h2
        rw [h2, Nat.xor_assoc, Nat.xor_assoc]
        congr 1
        exact Nat.xor_comm _ _
      · intro _
        rw [List.length_cons, hm]
        omega
      · intro hcon
        omega
    · refine ⟨[], p, ?_, ?_, ?_, ?_, ?_⟩
      · show GFPoly.divLoop b (fuel+1) p q = .ok (q ++ [], p)
        simp only [GFPoly.divLoop]
        rw [if_neg h, List.append_nil]
      · intro w
        rw [mulCoef_nil, Nat.zero_xor]
      · intro hle
        omega
      · intro _
        exact ⟨rfl, rfl⟩
      · omega

/-- C7 counterexample: dividing the polynomial [0x01] by [0x01] returns the
quotient [0x01] and the empty remainder: the division loop consumes the whole
dividend, so the returned remainder has zero coefficients, contradicting the
claim that the remainder always has at least one coefficient. -/
theorem c7_counterexample :
    GFPoly.div [1] [1] = .ok ([1], []) ∧ (([] : GFPoly)).length = 0 :=
  ⟨rfl, rfl⟩

/-- C7 (amended): for every polynomial p and divisor b over bytes: if b has
only zero coefficients (empty after stripping) then GFPoly::div fails with
DivideByZero; otherwise it returns a pair (q, r) with q*b + r = p as
polynomials over GF(2^8) (coefficient-wise, mulCoef being the product
convolution), and r is the zero polynomial or deg(r) < deg(b); the remainder
may have zero coefficients (it need not keep at least one). -/
theorem c7_div_contract (p b : GFPoly) (hp : ∀ v ∈ p, v < 256) (hb : ∀ v ∈ b, v < 256) :
    (GFPoly.is_zero b = true → GFPoly.div p b = .error .DivideByZero) ∧
    (GFPoly.is_zero b = false → ∃ q r, GFPoly.div p b = .ok (q, r) ∧
      (∀ w, mulCoef q b w ^^^ GFPoly.index r w = GFPoly.index p w) ∧
      (GFPoly.is_zero r = true ∨ r.length < b.length)) := by
  unfold GFPoly.div
  constructor
  · intro hz
    rw [if_pos (by rw [(strip_eq_nil_iff b).mpr hz]; rfl)]
  · intro hnz
    have hbne : b.remove_leading_zeroes ≠ [] := by
      intro hh
      rw [strip_eq_nil_iff] at hh
      rw [hh] at hnz
      cases hnz
    have hlenpos : 0 < (b.remove_leading_zeroes).length := List.length_pos.mpr hbne
    rw [if_neg (by omega)]
    by_cases hp2 : (p.remove_leading_zeroes).length = 0
    · rw [if_pos hp2]
      refine ⟨[0], [0], rfl, ?_, Or.inl rfl⟩
      intro w
      have hq : mulCoef [0] b w = 0 := by
        rw [mulCoef_cons, mulCoef_nil, Nat.zero_xor]
        split
        · exact gf_zero_mul _
        · rfl
      have hr : GFPoly.index [0] w = 0 := by
        unfold GFPoly.index
        split
        · next hlt =>
          have h1 : ([0] : GFPoly).length - 1 - w = 0 := by
            simp only [List.length_cons, List.length_nil]
            omega
          rw [h1, List.getD_cons_zero]
        · rfl
      have hps : GFPoly.index p w = 0 := by
        rw [← index_dropWhile_zero]
        exact index_of_le (by omega)
      rw [hq, hr, hps]
      rfl
    · rw [if_neg hp2]
      obtain ⟨t, r0, heq, hco, _, _, hrlen⟩ :=
        divLoop_spec (b.remove_leading_zeroes) hlenpos (strip_headD_ne_zero b hbne)
          (fun v hv => hb v ((List.dropWhile_sublist _).subset hv))
          ((p.remove_leading_zeroes).length) (p.remove_leading_zeroes) []
          (Nat.le_refl _)
          (fun v hv => hp v ((List.dropWhile_sublist _).subset hv))
      rw [List.nil_append] at heq
      refine ⟨t, r0.remove_leading_keep_last, by rw [heq], ?_, ?_⟩
      · intro w
        have hco2 := hco w
        rw [index_dropWhile_zero] at hco2
        have hmc : mulCoef t (b.remove_leading_zeroes) w = mulCoef t b w :=
          mulCoef_congr t _ b (fun v => index_dropWhile_zero b v) w
        rw [hmc] at hco2
        rw [index_striprem, ← hco2]
      · right
        have h1 := length_striprem_le r0
        have h2 : (b.remove_leading_zeroes).length ≤ b.length :=
          (List.dropWhile_sublist _).length_le
        omega

/-- C7 amended witness: the contract evaluated at p = [0x02, 0x07],
b = [0x03]. -/
theorem c7_div_contract_witness :
    (GFPoly.is_zero [3] = true → GFPoly.div [2, 7] [3] = .error .DivideByZero) ∧
    (GFPoly.is_zero [3] = false → ∃ q r, GFPoly.div [2, 7] [3] = .ok (q, r) ∧
      (∀ w, mulCoef q [3] w ^^^ GFPoly.index r w = GFPoly.index [2, 7] w) ∧
      (GFPoly.is_zero r = true ∨ r.length < ([3] : GFPoly).length)) :=
  c7_div_contract [2, 7] [3] (by decide) (by decide)

/-- C8: for every dividend p and every divisor b that is nonzero after
stripping leading zeros, GFPoly::div never raises AlgebraError: in the
division loop the new leading coefficient after each subtraction step is
always zero (leading_p XOR gf_mul(leading_b, gf_div(leading_p, leading_b))
vanishes), so the AlgebraError branch is never taken. -/
theorem c8_no_algebra_error (p b : GFPoly) (hp : ∀ v ∈ p, v < 256) (hb : ∀ v ∈ b, v < 256)
    (hbnz : GFPoly.is_zero b = false) :
    GFPoly.div p b ≠ .error .AlgebraError := by
  intro hbad
  unfold GFPoly.div at hbad
  have hbne : b.remove_leading_zeroes ≠ [] := by
    intro hh
    rw [strip_eq_nil_iff] at hh
    rw [hh] at hbnz
    cases hbnz
  have hlenpos : 0 < (b.remove_leading_zeroes).length := List.length_pos.mpr hbne
  rw [if_neg (by omega)] at hbad
  by_cases hp2 : (p.remove_leading_zeroes).length = 0
  · rw [if_pos hp2] at hbad
    cases hbad
  · rw [if_neg hp2] at hbad
    obtain ⟨t, r0, heq, _, _, _, _⟩ :=
      divLoop_spec (b.remove_leading_zeroes) hlenpos (strip_headD_ne_zero b hbne)
        (fun v hv => hb v ((List.dropWhile_sublist _).subset hv))
        ((p.remove_leading_zeroes).length) (p.remove_leading_zeroes) []
        (Nat.le_refl _)
        (fun v hv => hp v ((List.dropWhile_sublist _).subset hv))
    rw [List.nil_append] at heq
    rw [heq] at hbad
    cases hbad

/-- C8 witness: the spec's concrete boundary instance, the 30-coefficient
polynomial of gf_alg_test.cpp divided by the 11-coefficient polynomial
[0x01, 0x00 x 10]. -/
theorem c8_no_algebra_error_witness :
    GFPoly.div
      [0x5e, 0x60, 0x8c, 0x3d, 0xc6, 0x8e, 0x7e, 0xa5, 0x2c, 0xa4, 0x04, 0x8a,
       0x2b, 0xc2, 0x36, 0x0f, 0xfc, 0x3f, 0x09, 0x00, 0x00, 0x00, 0x00, 0x00,
       0x00, 0x00, 0x00, 0x00, 0x00, 0x00]
      [0x01, 0x00, 0x00, 0x00, 0x00, 0x00, 0x00, 0x00, 0x00, 0x00, 0x00] ≠
      .error .AlgebraError :=
  c8_no_algebra_error _ _ (by decide) (by decide) (by decide)

/-- C5 witness: Encode for FEC(2, 4) on the two-byte input [10, 20]. -/
theorem c5_encode_emissions_witness :
    ∃ l, Encode (fecNew 2 4) [10, 20] = .ok l ∧ l.length = (fecNew 2 4).n ∧
      l.map Prod.fst = List.range (fecNew 2 4).n ∧
      ∀ i, i < (fecNew 2 4).k →
        l.getD i (0, []) =
          (i, (([10, 20] : List Nat).drop (i*(([10, 20] : List Nat).length / (fecNew 2 4).k))).take
            (([10, 20] : List Nat).length / (fecNew 2 4).k)) :=
  c5_encode_emissions (fecNew 2 4) [10, 20] (by decide) (by decide) (by decide)

/-- C6 witness: EncodeSingle for the parity share 2 of FEC(2, 3). -/
theorem c6_encode_single_consistent_witness :
    ∃ bs l, EncodeSingle (fecNew 2 3) 2 [5, 6] [0] = .ok bs ∧
      Encode (fecNew 2 3) [5, 6] = .ok l ∧ l.getD 2 (0, []) = (2, bs) :=
  c6_encode_single_consistent (fecNew 2 3) 2 [5, 6] [0] (by decide) (by decide) (by decide)

end Infectious
